import Mathlib

/-!
Verification of the Spatial Bloom Filter engine of libSBF-cpp.

The development shallowly embeds the C++ sources (`sbf.h`, `sbf.cpp`,
`end.cpp`) into Lean:

* the `SBF` class becomes a `SBF` structure; the backing byte array
  `BYTE *filter` and the `int` counter arrays become total functions
  (C++ array writes become pointwise functional updates);
* `unsigned char` / `BYTE` values are natural numbers below 256, `int`
  values are integers; the `(BYTE)x` casts of the source are embedded as
  `% 256` truncations;
* the cryptographic digest functions (SHA1 / MD4 / MD5, external
  collaborators of the library) are abstracted by a `HashOracle`: an
  arbitrary map from input byte strings to digest bytes, each below 256
  exactly as guaranteed by the `unsigned char *` digest type;
* the runtime endianness probe `is_big_endian` of `end.cpp` is modelled by
  the `BIG_end` field that the constructor fills from it;
* `float` arithmetic (`GetAreaEmersion`) is embedded as exact rational
  arithmetic; the integer guard preceding it is embedded exactly.
-/

/-- Pointwise update of a byte store, modelling a C++ `array[i] = v` write. -/
def updB (f : Nat → Nat) (i : Nat) (v : Nat) : Nat → Nat :=
  fun j => if j = i then v else f j

/-- Pointwise update of an `int` array entry, modelling `arr[i] += d`. -/
def bump (f : Int → Int) (i : Int) (d : Int) : Int → Int :=
  fun j => if j = i then f i + d else f j

/-- Abstraction of the digest providers (SHA1/MD4/MD5 via OpenSSL): a map
from the input byte string to the digest bytes, each an `unsigned char`,
hence below 256. -/
structure HashOracle where
  digest : List Nat → Nat → Nat
  digest_lt : ∀ input i, digest input i < 256

/-- The state of the `sbf::SBF` class (`sbf.h`): configuration fields fixed
by the constructor, the backing byte array `filter`, and the statistics
counters mutated by `SetCell` and `Insert`. -/
structure SBF where
  bit_mapping : Nat
  cell_size : Nat
  HASH_number : Nat
  AREA_number : Nat
  BIG_end : Bool
  HASH_salt : Nat → Nat → Nat
  filter : Nat → Nat
  members : Int
  collisions : Int
  AREA_members : Int → Int
  AREA_cells : Int → Int
  AREA_self_collisions : Int → Int

/-- `SBF::GetCell` (sbf.cpp:225-245): decodes the area label stored at a
cell index; one byte for `cell_size` 1, two bytes (most significant first)
for `cell_size` 2, and the defensive `-1` default otherwise. -/
def SBF.GetCell (s : SBF) (index : Nat) : Int :=
  if s.cell_size = 1 then (s.filter index : Int)
  else if s.cell_size = 2 then
    ((s.filter (2 * index) <<< 8 ||| s.filter (2 * index + 1) : Nat) : Int)
  else -1

/-- `SBF::SetCell` (sbf.cpp:145-221): writes an area label into a cell,
applying the collision policy.  Out-of-range labels make the hash round a
no-op (the `break` after the range check); otherwise the four branches on
the current cell value mirror the source, including the exact counter
updates and their order. -/
def SBF.SetCell (s : SBF) (index : Nat) (area : Int) : SBF :=
  if s.cell_size = 1 then
    if 255 < area ∨ area < 0 then s
    else
      let cell_value := s.GetCell index
      if cell_value = 0 then
        { s with filter := updB s.filter index (area.toNat % 256),
                 AREA_cells := bump s.AREA_cells area 1 }
      else if cell_value < area then
        { s with filter := updB s.filter index (area.toNat % 256),
                 collisions := s.collisions + 1,
                 AREA_cells := bump (bump s.AREA_cells area 1) cell_value (-1) }
      else if cell_value = area then
        { s with collisions := s.collisions + 1,
                 AREA_self_collisions := bump s.AREA_self_collisions area 1 }
      else if area < cell_value then
        { s with collisions := s.collisions + 1 }
      else s
  else if s.cell_size = 2 then
    if 65535 < area ∨ area < 0 then s
    else
      let cell_value := s.GetCell index
      if cell_value = 0 then
        { s with filter := updB (updB s.filter (2 * index) (area.toNat >>> 8 % 256))
                                (2 * index + 1) (area.toNat % 256),
                 AREA_cells := bump s.AREA_cells area 1 }
      else if cell_value < area then
        { s with filter := updB (updB s.filter (2 * index) (area.toNat >>> 8 % 256))
                                (2 * index + 1) (area.toNat % 256),
                 collisions := s.collisions + 1,
                 AREA_cells := bump (bump s.AREA_cells area 1) cell_value (-1) }
      else if cell_value = area then
        { s with collisions := s.collisions + 1,
                 AREA_self_collisions := bump s.AREA_self_collisions area 1 }
      else if area < cell_value then
        { s with collisions := s.collisions + 1 }
      else s
  else s

/-- The index derivation shared by `SBF::Insert` (sbf.cpp:390-417) and
`SBF::Check` (sbf.cpp:449-475): XOR the element bytes with the leading
salt bytes of round `k`, hash, reassemble the first four digest bytes into
an `unsigned int` (branching on the endianness probe exactly as the
source), and right-shift by `32 - bit_mapping`. -/
def SBF.deriveIndex (s : SBF) (H : HashOracle) (string : List Nat) (k : Nat) : Nat :=
  let buffer := (List.range string.length).map fun j => string.getD j 0 ^^^ s.HASH_salt k j
  let d := H.digest buffer
  let digest_index :=
    (if s.BIG_end then
      d 0 <<< 24 ||| d 1 <<< 16 ||| d 2 <<< 8 ||| d 3
    else
      d 3 <<< 24 ||| d 2 <<< 16 ||| d 1 <<< 8 ||| d 0) % 2 ^ 32
  digest_index >>> (32 - s.bit_mapping)

/-- The hash-round loop of `SBF::Insert` (sbf.cpp:390-421): perform the
first `k` rounds, each deriving an index and calling `SetCell`. -/
def SBF.InsertRounds (H : HashOracle) (s : SBF) (string : List Nat) (area : Int) : Nat → SBF
  | 0 => s
  | k + 1 =>
    let t := SBF.InsertRounds H s string area k
    t.SetCell (t.deriveIndex H string k) area

/-- `SBF::Insert` (sbf.cpp:378-428): run all `HASH_number` rounds, then
increment `members` and `AREA_members[area]` once. -/
def SBF.Insert (s : SBF) (H : HashOracle) (string : List Nat) (area : Int) : SBF :=
  let t := SBF.InsertRounds H s string area s.HASH_number
  { t with members := t.members + 1,
           AREA_members := bump t.AREA_members area 1 }

/-- The loop of `SBF::Check` (sbf.cpp:449-485): `k` is the next round,
`area` the running result, the last argument the number of remaining
rounds.  An empty cell returns 0 immediately (the `return 0` of the
source); otherwise the running minimum is maintained. -/
def SBF.CheckAux (s : SBF) (H : HashOracle) (string : List Nat) (k : Nat) (area : Int) :
    Nat → Int
  | 0 => area
  | r + 1 =>
    let current_area := s.GetCell (s.deriveIndex H string k)
    if current_area = 0 then 0
    else if area = 0 then s.CheckAux H string (k + 1) current_area r
    else if current_area < area then s.CheckAux H string (k + 1) current_area r
    else s.CheckAux H string (k + 1) area r

/-- `SBF::Check` (sbf.cpp:435-490).  The method is `const` in the source;
the embedding returns only the resulting label, so freedom from mutation
is by construction. -/
def SBF.Check (s : SBF) (H : HashOracle) (string : List Nat) : Int :=
  s.CheckAux H string 0 0 s.HASH_number

/-- `SBF::GetAreaEmersion` (sbf.cpp:695-705), with the `float` quotient
embedded as an exact rational quotient; the guard is integral and exact. -/
def SBF.GetAreaEmersion (s : SBF) (area : Int) : Rat :=
  if s.AREA_members area = 0 ∨ s.HASH_number = 0 then -1
  else (s.AREA_cells area : Rat) /
    ((s.AREA_members area * (s.HASH_number : Int) - s.AREA_self_collisions area : Int) : Rat)

/-- A sequence of `Insert` calls (as performed by the sample application,
one call per dataset line). -/
def SBF.InsertList (s : SBF) (H : HashOracle) : List (List Nat × Int) → SBF
  | [] => s
  | e :: rest => SBF.InsertList (s.Insert H e.1 e.2) H rest

/-- The condition under which a `SetCell` call executes the final
`cell_value > area` branch (sbf.cpp:176-178 and 213-215): the range guard
of the active cell width passes and the stored label strictly exceeds the
inserted one.  (When the guard passes, `0 ≤ area`, so a strictly greater
cell value is also nonzero, below neither bound and unequal to `area`:
the condition is exactly the reachability of that branch.) -/
def SBF.SetCellGreaterBranch (s : SBF) (index : Nat) (area : Int) : Prop :=
  ((s.cell_size = 1 ∧ 0 ≤ area ∧ area ≤ 255) ∨
    (s.cell_size = 2 ∧ 0 ≤ area ∧ area ≤ 65535)) ∧
  area < s.GetCell index

/-- No hash round of a single `Insert` call reaches the greater-than
branch of `SetCell`. -/
def SBF.InsertNoGreater (s : SBF) (H : HashOracle) (string : List Nat) (area : Int) : Prop :=
  ∀ k, k < s.HASH_number →
    ¬ (SBF.InsertRounds H s string area k).SetCellGreaterBranch
        ((SBF.InsertRounds H s string area k).deriveIndex H string k) area

/-- No hash round of any `Insert` call of the sequence reaches the
greater-than branch of `SetCell`. -/
def SBF.InsertListNoGreater (s : SBF) (H : HashOracle) : List (List Nat × Int) → Prop
  | [] => True
  | e :: rest =>
    s.InsertNoGreater H e.1 e.2 ∧ SBF.InsertListNoGreater (s.Insert H e.1 e.2) H rest

/-- Formalisation of the specification text for index derivation (spec
§4.2): XOR the element bytes with the corresponding leading salt bytes,
hash, reassemble the first 4 digest bytes into an unsigned 32-bit integer
(byte0 most significant on a big-endian host, byte3 most significant
otherwise, written here as plain arithmetic), and keep the `bit_mapping`
most significant of its 32 bits, i.e. divide by `2 ^ (32 - bit_mapping)`. -/
def derive_index_spec (s : SBF) (H : HashOracle) (string : List Nat) (k : Nat) : Nat :=
  let salted := (List.range string.length).map fun j => string.getD j 0 ^^^ s.HASH_salt k j
  let b := H.digest salted
  let value :=
    if s.BIG_end then
      b 0 * 2 ^ 24 + b 1 * 2 ^ 16 + b 2 * 2 ^ 8 + b 3
    else
      b 3 * 2 ^ 24 + b 2 * 2 ^ 16 + b 1 * 2 ^ 8 + b 0
  value / 2 ^ (32 - s.bit_mapping)

/-! ## Basic lemmas about the array-update helpers -/

@[simp] lemma updB_same (f : Nat → Nat) (i v : Nat) : updB f i v i = v := by
  simp [updB]

lemma updB_other (f : Nat → Nat) (i v j : Nat) (h : j ≠ i) : updB f i v j = f j := by
  simp [updB, h]

@[simp] lemma bump_same (f : Int → Int) (i d : Int) : bump f i d i = f i + d := by
  simp [bump]

lemma bump_other (f : Int → Int) (i d j : Int) (h : j ≠ i) : bump f i d j = f j := by
  simp [bump, h]

/-! ## Fields that `SetCell` never touches -/

@[simp] lemma SetCell_members (s : SBF) (i : Nat) (a : Int) :
    (s.SetCell i a).members = s.members := by
  simp only [SBF.SetCell]
  split_ifs <;> rfl

@[simp] lemma SetCell_AREA_members (s : SBF) (i : Nat) (a : Int) :
    (s.SetCell i a).AREA_members = s.AREA_members := by
  simp only [SBF.SetCell]
  split_ifs <;> rfl

@[simp] lemma SetCell_cell_size (s : SBF) (i : Nat) (a : Int) :
    (s.SetCell i a).cell_size = s.cell_size := by
  simp only [SBF.SetCell]
  split_ifs <;> rfl

@[simp] lemma SetCell_bit_mapping (s : SBF) (i : Nat) (a : Int) :
    (s.SetCell i a).bit_mapping = s.bit_mapping := by
  simp only [SBF.SetCell]
  split_ifs <;> rfl

@[simp] lemma SetCell_HASH_number (s : SBF) (i : Nat) (a : Int) :
    (s.SetCell i a).HASH_number = s.HASH_number := by
  simp only [SBF.SetCell]
  split_ifs <;> rfl

@[simp] lemma SetCell_AREA_number (s : SBF) (i : Nat) (a : Int) :
    (s.SetCell i a).AREA_number = s.AREA_number := by
  simp only [SBF.SetCell]
  split_ifs <;> rfl

@[simp] lemma SetCell_HASH_salt (s : SBF) (i : Nat) (a : Int) :
    (s.SetCell i a).HASH_salt = s.HASH_salt := by
  simp only [SBF.SetCell]
  split_ifs <;> rfl

@[simp] lemma SetCell_BIG_end (s : SBF) (i : Nat) (a : Int) :
    (s.SetCell i a).BIG_end = s.BIG_end := by
  simp only [SBF.SetCell]
  split_ifs <;> rfl

/-! ## Reading cells -/

lemma GetCell_nonneg (s : SBF) (hcs : s.cell_size = 1 ∨ s.cell_size = 2) (j : Nat) :
    0 ≤ s.GetCell j := by
  rcases hcs with h | h <;> simp [SBF.GetCell, h]

lemma GetCell_congr (s t : SBF) (hcs : t.cell_size = s.cell_size)
    (hf : ∀ j, t.filter j = s.filter j) : ∀ j, t.GetCell j = s.GetCell j := by
  intro j
  simp [SBF.GetCell, hcs, hf]

/-- Two adjacent bytes with the most significant first decode to the value
they encode. -/
lemma decode_two (hi lo : Nat) (hlo : lo < 256) :
    ((hi <<< 8 ||| lo : Nat) : Int) = 256 * hi + lo := by
  have h : hi <<< 8 ||| lo = 2 ^ 8 * hi + lo := by
    rw [Nat.shiftLeft_eq, Nat.mul_comm, Nat.mul_add_lt_is_or hlo]
  rw [h]
  push_cast
  ring

/-! ## Unfolding lemmas for `SetCell` -/

/-- `SetCell` on a 1-byte filter with an in-range label: the four-branch
collision policy, with the unreachable trailing `else` collapsed (the
first three tests failing forces `area < cell_value`). -/
lemma SetCell_one (s : SBF) (i : Nat) (a : Int) (hcs : s.cell_size = 1)
    (h0 : 0 ≤ a) (h255 : a ≤ 255) :
    s.SetCell i a =
      if s.GetCell i = 0 then
        { s with filter := updB s.filter i (a.toNat % 256),
                 AREA_cells := bump s.AREA_cells a 1 }
      else if s.GetCell i < a then
        { s with filter := updB s.filter i (a.toNat % 256),
                 collisions := s.collisions + 1,
                 AREA_cells := bump (bump s.AREA_cells a 1) (s.GetCell i) (-1) }
      else if s.GetCell i = a then
        { s with collisions := s.collisions + 1,
                 AREA_self_collisions := bump s.AREA_self_collisions a 1 }
      else
        { s with collisions := s.collisions + 1 } := by
  have hg : ¬ (255 < a ∨ a < 0) := by omega
  simp only [SBF.SetCell, hcs, if_neg hg]
  norm_num
  split_ifs <;> first | rfl | (exfalso; omega)

/-- `SetCell` on a 2-byte filter with an in-range label. -/
lemma SetCell_two (s : SBF) (i : Nat) (a : Int) (hcs : s.cell_size = 2)
    (h0 : 0 ≤ a) (h65535 : a ≤ 65535) :
    s.SetCell i a =
      if s.GetCell i = 0 then
        { s with filter := updB (updB s.filter (2 * i) (a.toNat >>> 8 % 256))
                                (2 * i + 1) (a.toNat % 256),
                 AREA_cells := bump s.AREA_cells a 1 }
      else if s.GetCell i < a then
        { s with filter := updB (updB s.filter (2 * i) (a.toNat >>> 8 % 256))
                                (2 * i + 1) (a.toNat % 256),
                 collisions := s.collisions + 1,
                 AREA_cells := bump (bump s.AREA_cells a 1) (s.GetCell i) (-1) }
      else if s.GetCell i = a then
        { s with collisions := s.collisions + 1,
                 AREA_self_collisions := bump s.AREA_self_collisions a 1 }
      else
        { s with collisions := s.collisions + 1 } := by
  have hg : ¬ (65535 < a ∨ a < 0) := by omega
  simp only [SBF.SetCell, hcs, if_neg hg]
  norm_num
  split_ifs <;> first | rfl | (exfalso; omega)

/-- An out-of-range label on a 1-byte filter makes `SetCell` a no-op. -/
lemma SetCell_skip_one (s : SBF) (i : Nat) (a : Int) (hcs : s.cell_size = 1)
    (h : 255 < a ∨ a < 0) : s.SetCell i a = s := by
  simp [SBF.SetCell, hcs, h]

/-- An out-of-range label on a 2-byte filter makes `SetCell` a no-op. -/
lemma SetCell_skip_two (s : SBF) (i : Nat) (a : Int) (hcs : s.cell_size = 2)
    (h : 65535 < a ∨ a < 0) : s.SetCell i a = s := by
  simp [SBF.SetCell, hcs, h]

/-- With a cell width other than 1 or 2 bytes, `SetCell` is a no-op
(the `default` case of the switch). -/
lemma SetCell_skip_other (s : SBF) (i : Nat) (a : Int) (h1 : ¬ s.cell_size = 1)
    (h2 : ¬ s.cell_size = 2) : s.SetCell i a = s := by
  simp [SBF.SetCell, h1, h2]

/-! ## Fields preserved by the hash-round loop and by `Insert` -/

@[simp] lemma InsertRounds_members (H : HashOracle) (s : SBF) (string : List Nat)
    (a : Int) (k : Nat) : (SBF.InsertRounds H s string a k).members = s.members := by
  induction k with
  | zero => rfl
  | succ k ih => simp [SBF.InsertRounds, ih]

@[simp] lemma InsertRounds_AREA_members (H : HashOracle) (s : SBF) (string : List Nat)
    (a : Int) (k : Nat) :
    (SBF.InsertRounds H s string a k).AREA_members = s.AREA_members := by
  induction k with
  | zero => rfl
  | succ k ih => simp [SBF.InsertRounds, ih]

@[simp] lemma InsertRounds_cell_size (H : HashOracle) (s : SBF) (string : List Nat)
    (a : Int) (k : Nat) : (SBF.InsertRounds H s string a k).cell_size = s.cell_size := by
  induction k with
  | zero => rfl
  | succ k ih => simp [SBF.InsertRounds, ih]

@[simp] lemma InsertRounds_bit_mapping (H : HashOracle) (s : SBF) (string : List Nat)
    (a : Int) (k : Nat) : (SBF.InsertRounds H s string a k).bit_mapping = s.bit_mapping := by
  induction k with
  | zero => rfl
  | succ k ih => simp [SBF.InsertRounds, ih]

@[simp] lemma InsertRounds_HASH_number (H : HashOracle) (s : SBF) (string : List Nat)
    (a : Int) (k : Nat) : (SBF.InsertRounds H s string a k).HASH_number = s.HASH_number := by
  induction k with
  | zero => rfl
  | succ k ih => simp [SBF.InsertRounds, ih]

@[simp] lemma InsertRounds_AREA_number (H : HashOracle) (s : SBF) (string : List Nat)
    (a : Int) (k : Nat) : (SBF.InsertRounds H s string a k).AREA_number = s.AREA_number := by
  induction k with
  | zero => rfl
  | succ k ih => simp [SBF.InsertRounds, ih]

@[simp] lemma InsertRounds_HASH_salt (H : HashOracle) (s : SBF) (string : List Nat)
    (a : Int) (k : Nat) : (SBF.InsertRounds H s string a k).HASH_salt = s.HASH_salt := by
  induction k with
  | zero => rfl
  | succ k ih => simp [SBF.InsertRounds, ih]

@[simp] lemma InsertRounds_BIG_end (H : HashOracle) (s : SBF) (string : List Nat)
    (a : Int) (k : Nat) : (SBF.InsertRounds H s string a k).BIG_end = s.BIG_end := by
  induction k with
  | zero => rfl
  | succ k ih => simp [SBF.InsertRounds, ih]

@[simp] lemma Insert_members (s : SBF) (H : HashOracle) (string : List Nat) (a : Int) :
    (s.Insert H string a).members = s.members + 1 := by
  simp [SBF.Insert]

@[simp] lemma Insert_AREA_members (s : SBF) (H : HashOracle) (string : List Nat) (a : Int) :
    (s.Insert H string a).AREA_members = bump s.AREA_members a 1 := by
  simp [SBF.Insert]

@[simp] lemma Insert_cell_size (s : SBF) (H : HashOracle) (string : List Nat) (a : Int) :
    (s.Insert H string a).cell_size = s.cell_size := by
  simp [SBF.Insert]

@[simp] lemma Insert_HASH_number (s : SBF) (H : HashOracle) (string : List Nat) (a : Int) :
    (s.Insert H string a).HASH_number = s.HASH_number := by
  simp [SBF.Insert]

@[simp] lemma Insert_bit_mapping (s : SBF) (H : HashOracle) (string : List Nat) (a : Int) :
    (s.Insert H string a).bit_mapping = s.bit_mapping := by
  simp [SBF.Insert]

@[simp] lemma Insert_HASH_salt (s : SBF) (H : HashOracle) (string : List Nat) (a : Int) :
    (s.Insert H string a).HASH_salt = s.HASH_salt := by
  simp [SBF.Insert]

@[simp] lemma Insert_BIG_end (s : SBF) (H : HashOracle) (string : List Nat) (a : Int) :
    (s.Insert H string a).BIG_end = s.BIG_end := by
  simp [SBF.Insert]

/-! ## Concrete fixtures used by the witnesses -/

/-- A concrete digest oracle: digest byte `i` is `i % 256`. -/
def tHash : HashOracle :=
  ⟨fun _ i => i % 256, fun _ i => Nat.mod_lt i (by norm_num)⟩

/-- A freshly constructed filter with `bit_mapping` 4, one-byte cells,
two hash rounds, ten areas, on a little-endian host. -/
def tFresh : SBF where
  bit_mapping := 4
  cell_size := 1
  HASH_number := 2
  AREA_number := 10
  BIG_end := false
  HASH_salt := fun _ _ => 0
  filter := fun _ => 0
  members := 0
  collisions := 0
  AREA_members := fun _ => 0
  AREA_cells := fun _ => 0
  AREA_self_collisions := fun _ => 0

/-- A filter state with populated statistics counters. -/
def tStats : SBF :=
  { tFresh with AREA_members := fun _ => 3, AREA_cells := fun _ => 4,
                AREA_self_collisions := fun _ => 1 }

/-- Claim C9: for every area, `GetAreaEmersion` returns the sentinel `-1`
when `members[area] = 0` or `hash_count = 0` (no crash), and otherwise
returns `cells_used[area] / (members[area] * hash_count -
self_collisions[area])` (the `float` quotient embedded as an exact
rational quotient). -/
theorem area_emersion_guard (s : SBF) (area : Int) :
    (s.AREA_members area = 0 ∨ s.HASH_number = 0 → s.GetAreaEmersion area = -1) ∧
    (s.AREA_members area ≠ 0 → s.HASH_number ≠ 0 →
      s.GetAreaEmersion area =
        (s.AREA_cells area : Rat) /
          ((s.AREA_members area * (s.HASH_number : Int) -
            s.AREA_self_collisions area : Int) : Rat)) := by
  constructor
  · intro h
    simp [SBF.GetAreaEmersion, h]
  · intro h1 h2
    simp [SBF.GetAreaEmersion, h1, h2]

/-- Witness for C9 at concrete states: the sentinel on a fresh filter and
the quotient `4 / (3 * 2 - 1)` on a populated one. -/
theorem area_emersion_guard_witness :
    tFresh.GetAreaEmersion 1 = -1 ∧ tStats.GetAreaEmersion 1 = 4 / 5 := by
  constructor
  · exact (area_emersion_guard tFresh 1).1 (Or.inl rfl)
  · have h := (area_emersion_guard tStats 1).2 (by decide) (by decide)
    rw [h]
    norm_num [tStats, tFresh]

/-- Claim C4: cell codec round-trip.  Whenever `SetCell` actually writes
(the target cell is empty or holds a smaller label), reading the cell back
decodes the written label, for every representable label of either cell
width; and for 2-byte cells the label is stored at byte offset `2*index`
most significant byte first (`a / 256` then `a % 256`), with no dependence
on the host byte order (`BIG_end` is not consulted). -/
theorem cell_codec_roundtrip (s : SBF) (i : Nat) (a : Int) :
    (s.cell_size = 1 → 0 ≤ a → a ≤ 255 → s.GetCell i = 0 ∨ s.GetCell i < a →
      (s.SetCell i a).GetCell i = a) ∧
    (s.cell_size = 2 → 0 ≤ a → a ≤ 65535 → s.GetCell i = 0 ∨ s.GetCell i < a →
      (s.SetCell i a).GetCell i = a ∧
      (s.SetCell i a).filter (2 * i) = a.toNat / 256 ∧
      (s.SetCell i a).filter (2 * i + 1) = a.toNat % 256) := by
  constructor
  · intro hcs h0 h255 hw
    rw [SetCell_one s i a hcs h0 h255]
    by_cases hz : s.GetCell i = 0
    · rw [if_pos hz]
      simp only [SBF.GetCell, hcs, if_true, reduceIte, updB_same]
      omega
    · have hlt : s.GetCell i < a := hw.resolve_left hz
      rw [if_neg hz, if_pos hlt]
      simp only [SBF.GetCell, hcs, if_true, reduceIte, updB_same]
      omega
  · intro hcs h0 h65535 hw
    have hne : (2 : Nat) ≠ 1 := by norm_num
    have hbytes : ∀ f : Nat → Nat,
        (updB (updB f (2 * i) (a.toNat >>> 8 % 256)) (2 * i + 1) (a.toNat % 256)) (2 * i) =
          a.toNat >>> 8 % 256 ∧
        (updB (updB f (2 * i) (a.toNat >>> 8 % 256)) (2 * i + 1) (a.toNat % 256)) (2 * i + 1) =
          a.toNat % 256 := by
      intro f
      constructor
      · rw [updB_other _ _ _ _ (by omega), updB_same]
      · rw [updB_same]
    rw [SetCell_two s i a hcs h0 h65535]
    by_cases hz : s.GetCell i = 0
    · rw [if_pos hz]
      refine ⟨?_, ?_, ?_⟩
      · simp only [SBF.GetCell, hcs]
        norm_num
        rw [(hbytes s.filter).1, decode_two _ _ (Nat.mod_lt _ (by norm_num)),
          Nat.shiftRight_eq_div_pow]
        omega
      · rw [show ({ s with
            filter := updB (updB s.filter (2 * i) (a.toNat >>> 8 % 256)) (2 * i + 1)
              (a.toNat % 256),
            AREA_cells := bump s.AREA_cells a 1 } : SBF).filter =
            updB (updB s.filter (2 * i) (a.toNat >>> 8 % 256)) (2 * i + 1) (a.toNat % 256) from rfl,
          (hbytes s.filter).1, Nat.shiftRight_eq_div_pow]
        omega
      · rw [show ({ s with
            filter := updB (updB s.filter (2 * i) (a.toNat >>> 8 % 256)) (2 * i + 1)
              (a.toNat % 256),
            AREA_cells := bump s.AREA_cells a 1 } : SBF).filter =
            updB (updB s.filter (2 * i) (a.toNat >>> 8 % 256)) (2 * i + 1) (a.toNat % 256) from rfl,
          (hbytes s.filter).2]
    · have hlt : s.GetCell i < a := hw.resolve_left hz
      rw [if_neg hz, if_pos hlt]
      refine ⟨?_, ?_, ?_⟩
      · simp only [SBF.GetCell, hcs]
        norm_num
        rw [(hbytes s.filter).1, decode_two _ _ (Nat.mod_lt _ (by norm_num)),
          Nat.shiftRight_eq_div_pow]
        omega
      · rw [show ({ s with
            filter := updB (updB s.filter (2 * i) (a.toNat >>> 8 % 256)) (2 * i + 1)
              (a.toNat % 256),
            collisions := s.collisions + 1,
            AREA_cells := bump (bump s.AREA_cells a 1) (s.GetCell i) (-1) } : SBF).filter =
            updB (updB s.filter (2 * i) (a.toNat >>> 8 % 256)) (2 * i + 1) (a.toNat % 256) from rfl,
          (hbytes s.filter).1, Nat.shiftRight_eq_div_pow]
        omega
      · rw [show ({ s with
            filter := updB (updB s.filter (2 * i) (a.toNat >>> 8 % 256)) (2 * i + 1)
              (a.toNat % 256),
            collisions := s.collisions + 1,
            AREA_cells := bump (bump s.AREA_cells a 1) (s.GetCell i) (-1) } : SBF).filter =
            updB (updB s.filter (2 * i) (a.toNat >>> 8 % 256)) (2 * i + 1) (a.toNat % 256) from rfl,
          (hbytes s.filter).2]

/-- A freshly constructed filter with 2-byte cells. -/
def tFresh2 : SBF :=
  { tFresh with cell_size := 2, AREA_number := 1000 }

/-- Witness for C4: writing label 7 into an empty 1-byte cell reads back 7;
writing 777 into an empty 2-byte cell reads back 777 and stores the bytes
3 = 777 / 256 and 9 = 777 % 256 at offsets 6 and 7. -/
theorem cell_codec_roundtrip_witness :
    (tFresh.SetCell 3 7).GetCell 3 = 7 ∧
    (tFresh2.SetCell 3 777).GetCell 3 = 777 ∧
    (tFresh2.SetCell 3 777).filter 6 = 3 ∧
    (tFresh2.SetCell 3 777).filter 7 = 9 := by
  have h1 := (cell_codec_roundtrip tFresh 3 7).1 rfl (by norm_num) (by norm_num)
    (Or.inl (by decide))
  have h2 := (cell_codec_roundtrip tFresh2 3 777).2 rfl (by norm_num) (by norm_num)
    (Or.inl (by decide))
  refine ⟨h1, h2.1, ?_, ?_⟩
  · have := h2.2.1
    norm_num at this
    exact this
  · have := h2.2.2
    norm_num at this
    exact this

/-- The full case analysis of `SetCell` for an in-range label on either
cell width: fields never touched, other cells never changed, and the four
collision branches with their exact counter updates. -/
lemma SetCell_policy (s : SBF) (i : Nat) (a : Int)
    (hr : (s.cell_size = 1 ∧ 0 ≤ a ∧ a ≤ 255) ∨ (s.cell_size = 2 ∧ 0 ≤ a ∧ a ≤ 65535)) :
    ((s.SetCell i a).members = s.members ∧
     (s.SetCell i a).AREA_members = s.AREA_members ∧
     (s.SetCell i a).cell_size = s.cell_size ∧
     (s.SetCell i a).bit_mapping = s.bit_mapping ∧
     (s.SetCell i a).HASH_number = s.HASH_number ∧
     (s.SetCell i a).AREA_number = s.AREA_number ∧
     (s.SetCell i a).HASH_salt = s.HASH_salt ∧
     (s.SetCell i a).BIG_end = s.BIG_end) ∧
    (∀ j, j ≠ i → (s.SetCell i a).GetCell j = s.GetCell j) ∧
    (s.GetCell i = 0 →
      (s.SetCell i a).GetCell i = a ∧
      (s.SetCell i a).AREA_cells = bump s.AREA_cells a 1 ∧
      (s.SetCell i a).collisions = s.collisions ∧
      (s.SetCell i a).AREA_self_collisions = s.AREA_self_collisions) ∧
    (s.GetCell i ≠ 0 → s.GetCell i < a →
      (s.SetCell i a).GetCell i = a ∧
      (s.SetCell i a).AREA_cells = bump (bump s.AREA_cells a 1) (s.GetCell i) (-1) ∧
      (s.SetCell i a).collisions = s.collisions + 1 ∧
      (s.SetCell i a).AREA_self_collisions = s.AREA_self_collisions) ∧
    (s.GetCell i ≠ 0 → s.GetCell i = a →
      (s.SetCell i a).filter = s.filter ∧
      (s.SetCell i a).AREA_cells = s.AREA_cells ∧
      (s.SetCell i a).collisions = s.collisions + 1 ∧
      (s.SetCell i a).AREA_self_collisions = bump s.AREA_self_collisions a 1) ∧
    (a < s.GetCell i →
      (s.SetCell i a).filter = s.filter ∧
      (s.SetCell i a).AREA_cells = s.AREA_cells ∧
      (s.SetCell i a).collisions = s.collisions + 1 ∧
      (s.SetCell i a).AREA_self_collisions = s.AREA_self_collisions) := by
  rcases hr with ⟨hcs, h0, hb⟩ | ⟨hcs, h0, hb⟩
  · rw [SetCell_one s i a hcs h0 hb]
    by_cases hz : s.GetCell i = 0
    · rw [if_pos hz]
      refine ⟨⟨rfl, rfl, rfl, rfl, rfl, rfl, rfl, rfl⟩, ?_, ?_, ?_, ?_, ?_⟩
      · intro j hj
        simp [SBF.GetCell, hcs, updB, hj]
      · intro _
        refine ⟨?_, rfl, rfl, rfl⟩
        simp only [SBF.GetCell, hcs, if_true, reduceIte, updB_same]
        omega
      · intro h _
        exact absurd hz h
      · intro h _
        exact absurd hz h
      · intro h
        exfalso
        omega
    · by_cases hlt : s.GetCell i < a
      · rw [if_neg hz, if_pos hlt]
        refine ⟨⟨rfl, rfl, rfl, rfl, rfl, rfl, rfl, rfl⟩, ?_, ?_, ?_, ?_, ?_⟩
        · intro j hj
          simp [SBF.GetCell, hcs, updB, hj]
        · intro h
          exact absurd h hz
        · intro _ _
          refine ⟨?_, rfl, rfl, rfl⟩
          simp only [SBF.GetCell, hcs, if_true, reduceIte, updB_same]
          omega
        · intro _ h
          exfalso
          omega
        · intro h
          exfalso
          omega
      · by_cases heq : s.GetCell i = a
        · rw [if_neg hz, if_neg hlt, if_pos heq]
          refine ⟨⟨rfl, rfl, rfl, rfl, rfl, rfl, rfl, rfl⟩, ?_, ?_, ?_, ?_, ?_⟩
          · intro j _
            rfl
          · intro h
            exact absurd h hz
          · intro _ h
            exact absurd h hlt
          · intro _ _
            exact ⟨rfl, rfl, rfl, rfl⟩
          · intro h
            exfalso
            omega
        · rw [if_neg hz, if_neg hlt, if_neg heq]
          refine ⟨⟨rfl, rfl, rfl, rfl, rfl, rfl, rfl, rfl⟩, ?_, ?_, ?_, ?_, ?_⟩
          · intro j _
            rfl
          · intro h
            exact absurd h hz
          · intro _ h
            exact absurd h hlt
          · intro _ h
            exact absurd h heq
          · intro _
            exact ⟨rfl, rfl, rfl, rfl⟩
  · rw [SetCell_two s i a hcs h0 hb]
    have hbytes : ∀ f : Nat → Nat, ∀ j, j ≠ i →
        (updB (updB f (2 * i) (a.toNat >>> 8 % 256)) (2 * i + 1) (a.toNat % 256)) (2 * j) =
          f (2 * j) ∧
        (updB (updB f (2 * i) (a.toNat >>> 8 % 256)) (2 * i + 1) (a.toNat % 256)) (2 * j + 1) =
          f (2 * j + 1) := by
      intro f j hj
      constructor
      · rw [updB_other _ _ _ _ (by omega), updB_other _ _ _ _ (by omega)]
      · rw [updB_other _ _ _ _ (by omega), updB_other _ _ _ _ (by omega)]
    have hself : ∀ f : Nat → Nat,
        (((updB (updB f (2 * i) (a.toNat >>> 8 % 256)) (2 * i + 1) (a.toNat % 256)) (2 * i) <<< 8 |||
          a.toNat % 256 : Nat) : Int) = a := by
      intro f
      rw [updB_other _ _ _ _ (by omega), updB_same,
        decode_two _ _ (Nat.mod_lt _ (by norm_num)), Nat.shiftRight_eq_div_pow]
      omega
    by_cases hz : s.GetCell i = 0
    · rw [if_pos hz]
      refine ⟨⟨rfl, rfl, rfl, rfl, rfl, rfl, rfl, rfl⟩, ?_, ?_, ?_, ?_, ?_⟩
      · intro j hj
        simp only [SBF.GetCell, hcs]
        norm_num
        rw [(hbytes s.filter j hj).1, (hbytes s.filter j hj).2]
      · intro _
        refine ⟨?_, rfl, rfl, rfl⟩
        simp only [SBF.GetCell, hcs]
        norm_num
        exact hself s.filter
      · intro h _
        exact absurd hz h
      · intro h _
        exact absurd hz h
      · intro h
        exfalso
        omega
    · by_cases hlt : s.GetCell i < a
      · rw [if_neg hz, if_pos hlt]
        refine ⟨⟨rfl, rfl, rfl, rfl, rfl, rfl, rfl, rfl⟩, ?_, ?_, ?_, ?_, ?_⟩
        · intro j hj
          simp only [SBF.GetCell, hcs]
          norm_num
          rw [(hbytes s.filter j hj).1, (hbytes s.filter j hj).2]
        · intro h
          exact absurd h hz
        · intro _ _
          refine ⟨?_, rfl, rfl, rfl⟩
          simp only [SBF.GetCell, hcs]
          norm_num
          exact hself s.filter
        · intro _ h
          exfalso
          omega
        · intro h
          exfalso
          omega
      · by_cases heq : s.GetCell i = a
        · rw [if_neg hz, if_neg hlt, if_pos heq]
          refine ⟨⟨rfl, rfl, rfl, rfl, rfl, rfl, rfl, rfl⟩, ?_, ?_, ?_, ?_, ?_⟩
          · intro j _
            rfl
          · intro h
            exact absurd h hz
          · intro _ h
            exact absurd h hlt
          · intro _ _
            exact ⟨rfl, rfl, rfl, rfl⟩
          · intro h
            exfalso
            omega
        · rw [if_neg hz, if_neg hlt, if_neg heq]
          refine ⟨⟨rfl, rfl, rfl, rfl, rfl, rfl, rfl, rfl⟩, ?_, ?_, ?_, ?_, ?_⟩
          · intro j _
            rfl
          · intro h
            exact absurd h hz
          · intro _ h
            exact absurd h hlt
          · intro _ h
            exact absurd h heq
          · intro _
            exact ⟨rfl, rfl, rfl, rfl⟩

/-- Claim C1: the four-case collision policy of `SetCell` for an in-range
label, on either cell width.  The first block lists the fields no branch
ever changes; then: cells other than the target are never changed; an
empty cell is written with `area` and `cells_used[area]` is incremented; a
smaller stored label is overwritten, `total_collisions` and
`cells_used[area]` incremented and `cells_used[old]` decremented; an equal
label leaves the array untouched and increments `total_collisions` and
`self_collisions[area]`; a greater label leaves the array untouched and
increments only `total_collisions`. -/
theorem setcell_collision_policy (s : SBF) (i : Nat) (a : Int)
    (hr : (s.cell_size = 1 ∧ 0 ≤ a ∧ a ≤ 255) ∨ (s.cell_size = 2 ∧ 0 ≤ a ∧ a ≤ 65535)) :
    ((s.SetCell i a).members = s.members ∧
     (s.SetCell i a).AREA_members = s.AREA_members ∧
     (s.SetCell i a).cell_size = s.cell_size ∧
     (s.SetCell i a).bit_mapping = s.bit_mapping ∧
     (s.SetCell i a).HASH_number = s.HASH_number ∧
     (s.SetCell i a).AREA_number = s.AREA_number ∧
     (s.SetCell i a).HASH_salt = s.HASH_salt ∧
     (s.SetCell i a).BIG_end = s.BIG_end) ∧
    (∀ j, j ≠ i → (s.SetCell i a).GetCell j = s.GetCell j) ∧
    (s.GetCell i = 0 →
      (s.SetCell i a).GetCell i = a ∧
      (s.SetCell i a).AREA_cells = bump s.AREA_cells a 1 ∧
      (s.SetCell i a).collisions = s.collisions ∧
      (s.SetCell i a).AREA_self_collisions = s.AREA_self_collisions) ∧
    (s.GetCell i ≠ 0 → s.GetCell i < a →
      (s.SetCell i a).GetCell i = a ∧
      (s.SetCell i a).AREA_cells = bump (bump s.AREA_cells a 1) (s.GetCell i) (-1) ∧
      (s.SetCell i a).collisions = s.collisions + 1 ∧
      (s.SetCell i a).AREA_self_collisions = s.AREA_self_collisions) ∧
    (s.GetCell i ≠ 0 → s.GetCell i = a →
      (s.SetCell i a).filter = s.filter ∧
      (s.SetCell i a).AREA_cells = s.AREA_cells ∧
      (s.SetCell i a).collisions = s.collisions + 1 ∧
      (s.SetCell i a).AREA_self_collisions = bump s.AREA_self_collisions a 1) ∧
    (a < s.GetCell i →
      (s.SetCell i a).filter = s.filter ∧
      (s.SetCell i a).AREA_cells = s.AREA_cells ∧
      (s.SetCell i a).collisions = s.collisions + 1 ∧
      (s.SetCell i a).AREA_self_collisions = s.AREA_self_collisions) :=
  SetCell_policy s i a hr

/-- Witness for C1: writing label 3 into the empty cell 0 of a fresh
filter stores 3, leaves `total_collisions` untouched and increments
`cells_used[3]`. -/
theorem setcell_collision_policy_witness :
    (tFresh.SetCell 0 3).GetCell 0 = 3 ∧
    (tFresh.SetCell 0 3).collisions = tFresh.collisions ∧
    (tFresh.SetCell 0 3).AREA_cells 3 = tFresh.AREA_cells 3 + 1 ∧
    (tFresh.SetCell 0 3).members = tFresh.members := by
  have h := setcell_collision_policy tFresh 0 3 (Or.inl ⟨rfl, by norm_num, by norm_num⟩)
  have hz : tFresh.GetCell 0 = 0 := by decide
  refine ⟨(h.2.2.1 hz).1, (h.2.2.1 hz).2.2.1, ?_, h.1.1⟩
  rw [(h.2.2.1 hz).2.1, bump_same]

/-! ## A closed form for the decoded cell values after `SetCell` -/

lemma GetCell_eq_one (t : SBF) (hcs : t.cell_size = 1) (j : Nat) :
    t.GetCell j = (t.filter j : Int) := by
  simp [SBF.GetCell, hcs]

lemma GetCell_eq_two (t : SBF) (hcs : t.cell_size = 2) (j : Nat) :
    t.GetCell j = ((t.filter (2 * j) <<< 8 ||| t.filter (2 * j + 1) : Nat) : Int) := by
  simp [SBF.GetCell, hcs]

/-- On a fresh (all-zero) backing array of either width every cell decodes
to 0. -/
lemma GetCell_fresh (s : SBF) (hcs : s.cell_size = 1 ∨ s.cell_size = 2)
    (hfresh : ∀ j, s.filter j = 0) (j : Nat) : s.GetCell j = 0 := by
  rcases hcs with h | h
  · rw [GetCell_eq_one s h, hfresh]
    norm_num
  · rw [GetCell_eq_two s h, hfresh, hfresh]
    norm_num

/-- The decoded value of any cell after `SetCell`: it becomes `area`
exactly when the label is in range for the active width, the cell is the
target and the write happens (empty cell or smaller stored label), and is
unchanged otherwise. -/
lemma GetCell_SetCell (s : SBF) (i : Nat) (a : Int) (j : Nat) :
    (s.SetCell i a).GetCell j =
      if ((s.cell_size = 1 ∧ 0 ≤ a ∧ a ≤ 255) ∨ (s.cell_size = 2 ∧ 0 ≤ a ∧ a ≤ 65535)) ∧
          j = i ∧ (s.GetCell i = 0 ∨ s.GetCell i < a) then a
      else s.GetCell j := by
  by_cases hw : (s.cell_size = 1 ∧ 0 ≤ a ∧ a ≤ 255) ∨ (s.cell_size = 2 ∧ 0 ≤ a ∧ a ≤ 65535)
  · have hp := SetCell_policy s i a hw
    by_cases hj : j = i
    · subst hj
      by_cases hz : s.GetCell j = 0
      · rw [if_pos ⟨hw, rfl, Or.inl hz⟩]
        exact (hp.2.2.1 hz).1
      · by_cases hlt : s.GetCell j < a
        · rw [if_pos ⟨hw, rfl, Or.inr hlt⟩]
          exact (hp.2.2.2.1 hz hlt).1
        · rw [if_neg (by tauto)]
          by_cases heq : s.GetCell j = a
          · have hf := (hp.2.2.2.2.1 hz heq).1
            exact GetCell_congr s _ hp.1.2.2.1 (fun k => by rw [hf]) j
          · have hgt : a < s.GetCell j := by omega
            have hf := (hp.2.2.2.2.2 hgt).1
            exact GetCell_congr s _ hp.1.2.2.1 (fun k => by rw [hf]) j
    · rw [if_neg (by tauto)]
      exact hp.2.1 j hj
  · rw [if_neg (by tauto)]
    by_cases hcs1 : s.cell_size = 1
    · have hr : 255 < a ∨ a < 0 := by
        have h : ¬ (0 ≤ a ∧ a ≤ 255) := fun hc => hw (Or.inl ⟨hcs1, hc⟩)
        omega
      rw [SetCell_skip_one s i a hcs1 hr]
    · by_cases hcs2 : s.cell_size = 2
      · have hr : 65535 < a ∨ a < 0 := by
          have h : ¬ (0 ≤ a ∧ a ≤ 65535) := fun hc => hw (Or.inr ⟨hcs2, hc⟩)
          omega
        rw [SetCell_skip_two s i a hcs2 hr]
      · rw [SetCell_skip_other s i a hcs1 hcs2]

/-- `SetCell` never decreases the decoded value of any cell. -/
lemma SetCell_GetCell_mono (s : SBF) (i : Nat) (a : Int) (j : Nat) :
    s.GetCell j ≤ (s.SetCell i a).GetCell j := by
  rw [GetCell_SetCell]
  split_ifs with h
  · obtain ⟨hw, hj, hv⟩ := h
    subst hj
    have h0 : 0 ≤ a := by rcases hw with ⟨_, h, _⟩ | ⟨_, h, _⟩ <;> exact h
    rcases hv with hv | hv <;> omega
  · exact le_refl _

/-- The member-counter increments at the end of `Insert` do not affect the
decoded cells. -/
lemma Insert_GetCell (s : SBF) (H : HashOracle) (string : List Nat) (a : Int) (j : Nat) :
    (s.Insert H string a).GetCell j =
      (SBF.InsertRounds H s string a s.HASH_number).GetCell j := rfl

/-! ## Provenance of decoded cell values -/

lemma SetCell_mem_pres (s : SBF) (i : Nat) (a : Int) (S : List Int) (ha : a ∈ S)
    (hinv : ∀ j, s.GetCell j = 0 ∨ s.GetCell j ∈ S) :
    ∀ j, (s.SetCell i a).GetCell j = 0 ∨ (s.SetCell i a).GetCell j ∈ S := by
  intro j
  rw [GetCell_SetCell]
  split_ifs with h
  · exact Or.inr ha
  · exact hinv j

lemma InsertRounds_mem_pres (H : HashOracle) (s : SBF) (string : List Nat) (a : Int)
    (S : List Int) (ha : a ∈ S) (hinv : ∀ j, s.GetCell j = 0 ∨ s.GetCell j ∈ S) (k : Nat) :
    ∀ j, (SBF.InsertRounds H s string a k).GetCell j = 0 ∨
      (SBF.InsertRounds H s string a k).GetCell j ∈ S := by
  induction k with
  | zero => exact hinv
  | succ k ih =>
    intro j
    exact SetCell_mem_pres _ _ _ S ha ih j

lemma InsertList_mem_pres (H : HashOracle) :
    ∀ (L : List (List Nat × Int)) (s : SBF) (S : List Int), (∀ p ∈ L, p.2 ∈ S) →
      (∀ j, s.GetCell j = 0 ∨ s.GetCell j ∈ S) →
      ∀ j, (s.InsertList H L).GetCell j = 0 ∨ (s.InsertList H L).GetCell j ∈ S := by
  intro L
  induction L with
  | nil =>
    intro s S _ hinv j
    exact hinv j
  | cons e rest ih =>
    intro s S hsub hinv j
    refine ih (s.Insert H e.1 e.2) S (fun p hp => hsub p (List.mem_cons_of_mem _ hp)) ?_ j
    intro jj
    rw [Insert_GetCell]
    exact InsertRounds_mem_pres H s e.1 e.2 S (hsub e (List.mem_cons_self e rest)) hinv
      s.HASH_number jj

/-- Claim C7: starting from a fresh filter (of either actual cell width),
after any sequence of inserts every decoded cell value is 0 or one of the
inserted area labels (the labels handed to `SetCell`); and, at every state
and for every cell, a `SetCell` application never decreases the decoded
value of the cell: it raises it or leaves it unchanged. -/
theorem cell_value_provenance_monotone (H : HashOracle) (s : SBF)
    (L : List (List Nat × Int)) (hcs : s.cell_size = 1 ∨ s.cell_size = 2)
    (hfresh : ∀ j, s.filter j = 0) :
    (∀ j, (s.InsertList H L).GetCell j = 0 ∨
      (s.InsertList H L).GetCell j ∈ L.map Prod.snd) ∧
    (∀ (t : SBF) (i : Nat) (a : Int) (j : Nat), t.GetCell j ≤ (t.SetCell i a).GetCell j) := by
  constructor
  · refine InsertList_mem_pres H L s (L.map Prod.snd) ?_ ?_
    · intro p hp
      exact List.mem_map_of_mem Prod.snd hp
    · intro j
      exact Or.inl (GetCell_fresh s hcs hfresh j)
  · intro t i a j
    exact SetCell_GetCell_mono t i a j

/-- Witness for C7: after inserting two elements with areas 4 and 2 into a
fresh filter, every decoded cell is 0, 4 or 2; and a `SetCell` never
lowered any cell. -/
theorem cell_value_provenance_monotone_witness :
    (∀ j, (tFresh.InsertList tHash [([3], 4), ([9], 2)]).GetCell j = 0 ∨
      (tFresh.InsertList tHash [([3], 4), ([9], 2)]).GetCell j ∈
        ([([3], 4), ([9], 2)] : List (List Nat × Int)).map Prod.snd) ∧
    tFresh.GetCell 0 ≤ (tFresh.SetCell 0 9).GetCell 0 := by
  have h := cell_value_provenance_monotone tHash tFresh [([3], 4), ([9], 2)]
    (Or.inl rfl) (fun _ => rfl)
  exact ⟨h.1, h.2 tFresh 0 9 0⟩

/-! ## `Insert` and the member counters -/

/-- With a label out of range for the active cell width every hash round
is a complete no-op. -/
lemma InsertRounds_out_of_range (H : HashOracle) (s : SBF) (string : List Nat) (a : Int)
    (h : (s.cell_size = 1 ∧ (255 < a ∨ a < 0)) ∨ (s.cell_size = 2 ∧ (65535 < a ∨ a < 0)))
    (k : Nat) : SBF.InsertRounds H s string a k = s := by
  induction k with
  | zero => rfl
  | succ k ih =>
    simp only [SBF.InsertRounds]
    rw [ih]
    rcases h with ⟨hcs, hr⟩ | ⟨hcs, hr⟩
    · exact SetCell_skip_one _ _ _ hcs hr
    · exact SetCell_skip_two _ _ _ hcs hr

/-- Claim C3: every `Insert` call increments `total_members` and
`members[area]` exactly once and no other member counter, independently of
what the hash rounds did; and when the area label is out of range for the
active cell width, every round is a complete no-op, the call still
completes and the resulting state is exactly the input state with the two
member-counter increments. -/
theorem insert_member_counters (s : SBF) (H : HashOracle) (string : List Nat) (a : Int) :
    (s.Insert H string a).members = s.members + 1 ∧
    (s.Insert H string a).AREA_members a = s.AREA_members a + 1 ∧
    (∀ b, b ≠ a → (s.Insert H string a).AREA_members b = s.AREA_members b) ∧
    ((s.cell_size = 1 ∧ (255 < a ∨ a < 0)) ∨ (s.cell_size = 2 ∧ (65535 < a ∨ a < 0)) →
      s.Insert H string a =
        { s with members := s.members + 1, AREA_members := bump s.AREA_members a 1 }) := by
  refine ⟨by simp, by simp, ?_, ?_⟩
  · intro b hb
    rw [Insert_AREA_members, bump_other _ _ _ _ hb]
  · intro h
    simp only [SBF.Insert]
    rw [InsertRounds_out_of_range H s string a h s.HASH_number]

/-- Witness for C3: inserting with the negative area label `-5` into a
1-byte filter only performs the two member-counter increments. -/
theorem insert_member_counters_witness :
    (tFresh.Insert tHash [1, 2] (-5)).members = tFresh.members + 1 ∧
    tFresh.Insert tHash [1, 2] (-5) =
      { tFresh with members := tFresh.members + 1,
                    AREA_members := bump tFresh.AREA_members (-5) 1 } :=
  ⟨(insert_member_counters tFresh tHash [1, 2] (-5)).1,
   (insert_member_counters tFresh tHash [1, 2] (-5)).2.2.2 (Or.inl ⟨rfl, by norm_num⟩)⟩

/-! ## Index derivation -/

/-- Reassembling four bytes with shifts and ors equals the positional
arithmetic value. -/
lemma assemble_eq (b0 b1 b2 b3 : Nat) (h1 : b1 < 256) (h2 : b2 < 256) (h3 : b3 < 256) :
    b0 <<< 24 ||| b1 <<< 16 ||| b2 <<< 8 ||| b3 =
      b0 * 2 ^ 24 + b1 * 2 ^ 16 + b2 * 2 ^ 8 + b3 := by
  rw [Nat.shiftLeft_eq, Nat.shiftLeft_eq, Nat.shiftLeft_eq, Nat.or_assoc, Nat.or_assoc,
    show b2 * 2 ^ 8 = 2 ^ 8 * b2 from Nat.mul_comm _ _,
    show b1 * 2 ^ 16 = 2 ^ 16 * b1 from Nat.mul_comm _ _,
    show b0 * 2 ^ 24 = 2 ^ 24 * b0 from Nat.mul_comm _ _,
    ← Nat.mul_add_lt_is_or h3 b2,
    ← Nat.mul_add_lt_is_or (show 2 ^ 8 * b2 + b3 < 2 ^ 16 by omega) b1,
    ← Nat.mul_add_lt_is_or (show 2 ^ 16 * b1 + (2 ^ 8 * b2 + b3) < 2 ^ 24 by omega) b0]
  ring

/-- For byte inputs the `unsigned int` truncation of the reassembled
value is the identity. -/
lemma assemble_mod (b0 b1 b2 b3 : Nat) (h0 : b0 < 256) (h1 : b1 < 256) (h2 : b2 < 256)
    (h3 : b3 < 256) :
    (b0 <<< 24 ||| b1 <<< 16 ||| b2 <<< 8 ||| b3) % 2 ^ 32 =
      b0 * 2 ^ 24 + b1 * 2 ^ 16 + b2 * 2 ^ 8 + b3 := by
  rw [assemble_eq _ _ _ _ h1 h2 h3, Nat.mod_eq_of_lt (by omega)]

/-- Claim C5: the cell index derived by `Insert` and `Check` equals the
function described by the specification — XOR with the leading salt bytes,
hash, reassemble the first 4 digest bytes into an unsigned 32-bit integer
with the byte order selected by the host endianness probe, right-shift by
`32 - bit_mapping` — and it always lies below `2 ^ bit_mapping`. -/
theorem derive_index_correct (s : SBF) (H : HashOracle) (string : List Nat) (k : Nat) :
    s.deriveIndex H string k = derive_index_spec s H string k ∧
    s.deriveIndex H string k < 2 ^ s.bit_mapping := by
  constructor
  · simp only [SBF.deriveIndex, derive_index_spec]
    cases hbe : s.BIG_end <;>
      simp only [hbe, Bool.false_eq_true, if_true, if_false, reduceIte] <;>
      rw [assemble_mod _ _ _ _ (H.digest_lt _ _) (H.digest_lt _ _) (H.digest_lt _ _)
        (H.digest_lt _ _), Nat.shiftRight_eq_div_pow]
  · simp only [SBF.deriveIndex]
    rw [Nat.shiftRight_eq_div_pow]
    apply Nat.div_lt_of_lt_mul
    calc _ % 2 ^ 32 < 2 ^ 32 := Nat.mod_lt _ (by positivity)
      _ ≤ 2 ^ (32 - s.bit_mapping) * 2 ^ s.bit_mapping := by
        rw [← pow_add]
        exact Nat.pow_le_pow_right (by norm_num) (by omega)

/-! ## Semantics of `Check` -/

/-- If some remaining round hits an empty cell, the `Check` loop returns 0
whatever the accumulator holds. -/
lemma CheckAux_zero (s : SBF) (H : HashOracle) (string : List Nat) :
    ∀ (r k : Nat) (acc : Int),
      (∃ m, k ≤ m ∧ m < k + r ∧ s.GetCell (s.deriveIndex H string m) = 0) →
      s.CheckAux H string k acc r = 0 := by
  intro r
  induction r with
  | zero =>
    intro k acc h
    obtain ⟨m, h1, h2, _⟩ := h
    omega
  | succ r ih =>
    intro k acc h
    obtain ⟨m, h1, h2, hm⟩ := h
    simp only [SBF.CheckAux]
    by_cases hc : s.GetCell (s.deriveIndex H string k) = 0
    · rw [if_pos hc]
    · rw [if_neg hc]
      have hmk : m ≠ k := fun he => hc (he ▸ hm)
      have hex : ∃ m2, k + 1 ≤ m2 ∧ m2 < k + 1 + r ∧
          s.GetCell (s.deriveIndex H string m2) = 0 := ⟨m, by omega, by omega, hm⟩
      split_ifs <;> exact ih (k + 1) _ hex

/-- If no remaining round hits an empty cell and the accumulator is a
label already seen, the `Check` loop returns the minimum of the
accumulator and the labels read by the remaining rounds. -/
lemma CheckAux_min (s : SBF) (H : HashOracle) (string : List Nat) :
    ∀ (r k : Nat) (acc : Int),
      (∀ m, k ≤ m → m < k + r → s.GetCell (s.deriveIndex H string m) ≠ 0) → acc ≠ 0 →
      s.CheckAux H string k acc r ∈
        acc :: (List.range' k r).map (fun m => s.GetCell (s.deriveIndex H string m)) ∧
      ∀ l ∈ acc :: (List.range' k r).map (fun m => s.GetCell (s.deriveIndex H string m)),
        s.CheckAux H string k acc r ≤ l := by
  intro r
  induction r with
  | zero =>
    intro k acc _ _
    constructor
    · simp [SBF.CheckAux]
    · intro l hl
      simp only [List.range'_zero, List.map_nil, List.mem_singleton] at hl
      simp [SBF.CheckAux, hl]
  | succ r ih =>
    intro k acc hnz hacc
    have hc : s.GetCell (s.deriveIndex H string k) ≠ 0 := hnz k (le_refl k) (by omega)
    have hsh : ∀ m, k + 1 ≤ m → m < k + 1 + r →
        s.GetCell (s.deriveIndex H string m) ≠ 0 := fun m h1 h2 => hnz m (by omega) (by omega)
    rw [List.range'_succ, List.map_cons]
    simp only [SBF.CheckAux]
    rw [if_neg hc, if_neg hacc]
    by_cases hlt : s.GetCell (s.deriveIndex H string k) < acc
    · rw [if_pos hlt]
      obtain ⟨ihm, ihb⟩ := ih (k + 1) (s.GetCell (s.deriveIndex H string k)) hsh hc
      constructor
      · exact List.mem_cons_of_mem acc ihm
      · intro l hl
        rcases List.mem_cons.1 hl with h | h
        · have hhead := ihb (s.GetCell (s.deriveIndex H string k))
            (List.mem_cons_self _ _)
          omega
        · exact ihb l h
    · rw [if_neg hlt]
      obtain ⟨ihm, ihb⟩ := ih (k + 1) acc hsh hacc
      constructor
      · rcases List.mem_cons.1 ihm with h | h
        · rw [h]
          exact List.mem_cons_self _ _
        · exact List.mem_cons_of_mem acc (List.mem_cons_of_mem _ h)
      · intro l hl
        have hhead := ihb acc (List.mem_cons_self _ _)
        rcases List.mem_cons.1 hl with h | h
        · omega
        · rcases List.mem_cons.1 h with h2 | h2
          · omega
          · exact ihb l (List.mem_cons_of_mem acc h2)

/-- Claim C2: `Check` derives one index per hash round and reads that
cell; it returns 0 whenever some round reads an empty cell, and otherwise
returns the minimum of the (all nonzero) labels read across the
`hash_count` rounds — stated as: the result is one of the read labels and
a lower bound of all of them.  The embedding of `Check` returns only the
label, so the filter state is unchanged by construction. -/
theorem check_semantics (s : SBF) (H : HashOracle) (string : List Nat) :
    ((∃ k, k < s.HASH_number ∧ s.GetCell (s.deriveIndex H string k) = 0) →
      s.Check H string = 0) ∧
    (s.HASH_number ≠ 0 →
      (∀ k, k < s.HASH_number → s.GetCell (s.deriveIndex H string k) ≠ 0) →
      s.Check H string ∈
        (List.range s.HASH_number).map (fun k => s.GetCell (s.deriveIndex H string k)) ∧
      ∀ l ∈ (List.range s.HASH_number).map (fun k => s.GetCell (s.deriveIndex H string k)),
        s.Check H string ≤ l) := by
  constructor
  · intro h
    obtain ⟨k, hk, hz⟩ := h
    exact CheckAux_zero s H string s.HASH_number 0 0 ⟨k, by omega, by omega, hz⟩
  · intro hn hne
    obtain ⟨r, hr⟩ := Nat.exists_eq_succ_of_ne_zero hn
    have hc0 : s.GetCell (s.deriveIndex H string 0) ≠ 0 := hne 0 (by omega)
    have hsh : ∀ m, 1 ≤ m → m < 1 + r →
        s.GetCell (s.deriveIndex H string m) ≠ 0 := fun m h1 h2 => hne m (by omega)
    have hstep : s.Check H string =
        s.CheckAux H string 1 (s.GetCell (s.deriveIndex H string 0)) r := by
      rw [SBF.Check, hr]
      simp only [SBF.CheckAux]
      rw [if_neg hc0]
      norm_num
    obtain ⟨ihm, ihb⟩ := CheckAux_min s H string r 1 (s.GetCell (s.deriveIndex H string 0))
      hsh hc0
    rw [hr, List.range_eq_range', List.range'_succ, List.map_cons, hstep]
    exact ⟨ihm, ihb⟩

/-- A filter state whose cells all hold nonzero labels. -/
def tCheck : SBF :=
  { tFresh with bit_mapping := 1, filter := fun j => j + 5 }

/-- Witness for C2: on a filter whose cells are all nonzero, `Check`
returns one of the labels read by its rounds; on a fresh filter a round
reads 0 and `Check` returns 0. -/
theorem check_semantics_witness :
    tCheck.Check tHash [7] ∈
      (List.range tCheck.HASH_number).map
        (fun k => tCheck.GetCell (tCheck.deriveIndex tHash [7] k)) ∧
    tFresh.Check tHash [7] = 0 := by
  constructor
  · exact ((check_semantics tCheck tHash [7]).2 (by decide) (by decide)).1
  · exact (check_semantics tFresh tHash [7]).1 ⟨0, by decide, by decide⟩

/-! ## Ascending insertion never reaches the greater-than branch -/

lemma SetCell_le (s : SBF) (i : Nat) (a A : Int) (ha : a ≤ A)
    (hinv : ∀ j, s.GetCell j ≤ A) : ∀ j, (s.SetCell i a).GetCell j ≤ A := by
  intro j
  rw [GetCell_SetCell]
  split_ifs with h
  · exact ha
  · exact hinv j

lemma InsertRounds_le (H : HashOracle) (s : SBF) (string : List Nat) (a A : Int)
    (ha : a ≤ A) (hinv : ∀ j, s.GetCell j ≤ A) (k : Nat) :
    ∀ j, (SBF.InsertRounds H s string a k).GetCell j ≤ A := by
  induction k with
  | zero => exact hinv
  | succ k ih => exact SetCell_le _ _ a A ha ih

lemma InsertNoGreater_of_le (s : SBF) (H : HashOracle) (string : List Nat) (a : Int)
    (hinv : ∀ j, s.GetCell j ≤ a) : s.InsertNoGreater H string a := by
  intro k _ hb
  obtain ⟨hw, hgt⟩ := hb
  have hle := InsertRounds_le H s string a a (le_refl a) hinv k
    ((SBF.InsertRounds H s string a k).deriveIndex H string k)
  omega

lemma InsertListNoGreater_of (H : HashOracle) :
    ∀ (L : List (List Nat × Int)) (s : SBF), (∀ p ∈ L, 0 ≤ p.2) →
      List.Chain' (fun p q => p.2 ≤ q.2) L →
      (∀ p, L.head? = some p → ∀ j, s.GetCell j ≤ p.2) →
      s.InsertListNoGreater H L := by
  intro L
  induction L with
  | nil =>
    intro s _ _ _
    trivial
  | cons e rest ih =>
    intro s hpos hchain hhead
    have hinv : ∀ j, s.GetCell j ≤ e.2 := hhead e rfl
    constructor
    · exact InsertNoGreater_of_le s H e.1 e.2 hinv
    · refine ih (s.Insert H e.1 e.2) (fun p hp => hpos p (List.mem_cons_of_mem _ hp))
        hchain.tail ?_
      intro q hq j
      have h1 : (s.Insert H e.1 e.2).GetCell j ≤ e.2 := by
        rw [Insert_GetCell]
        exact InsertRounds_le H s e.1 e.2 e.2 (le_refl _) hinv s.HASH_number j
      have h2 : e.2 ≤ q.2 := by
        cases rest with
        | nil => simp at hq
        | cons q2 rest2 =>
          rw [List.head?_cons, Option.some_inj] at hq
          subst hq
          exact (List.chain'_cons.1 hchain).1
      omega

/-- Claim C6: starting from a fresh filter, a sequence of `Insert` calls
whose in-range area labels are non-decreasing never makes any `SetCell`
invocation of any hash round reach the `cell_value > area` branch; hence
every `total_collisions` increment comes from the overwrite or
self-collision branches. -/
theorem ascending_insert_no_greater (H : HashOracle) (s : SBF)
    (L : List (List Nat × Int)) (hfresh : ∀ j, s.filter j = 0)
    (hrange : ∀ p ∈ L, 0 ≤ p.2 ∧ (s.cell_size = 1 → p.2 ≤ 255) ∧
      (s.cell_size = 2 → p.2 ≤ 65535))
    (hsorted : List.Chain' (fun p q => p.2 ≤ q.2) L) :
    s.InsertListNoGreater H L := by
  refine InsertListNoGreater_of H L s (fun p hp => (hrange p hp).1) hsorted ?_
  intro q hq j
  have hq2 : 0 ≤ q.2 := by
    cases L with
    | nil => simp at hq
    | cons e rest =>
      rw [List.head?_cons, Option.some_inj] at hq
      subst hq
      exact (hrange _ (List.mem_cons_self _ _)).1
  by_cases hcs : s.cell_size = 1 ∨ s.cell_size = 2
  · rw [GetCell_fresh s hcs hfresh j]
    exact hq2
  · obtain ⟨h1, h2⟩ := not_or.1 hcs
    have hm : s.GetCell j = -1 := by
      simp [SBF.GetCell, h1, h2]
    omega

/-- Witness for C6 with the non-decreasing areas 1, 2 on a fresh filter. -/
theorem ascending_insert_no_greater_witness :
    tFresh.InsertListNoGreater tHash [([3], 1), ([4], 2)] :=
  ascending_insert_no_greater tHash tFresh [([3], 1), ([4], 2)] (fun _ => rfl)
    (by decide) (by norm_num [List.chain'_cons])

/-! ## Occupancy bound -/

/-- A single `SetCell` with label `b` increments `cells_used[a]` by at
most 1 when `a = b`, and never increments it otherwise. -/
lemma SetCell_AREA_cells_le (s : SBF) (i : Nat) (b a : Int) :
    (s.SetCell i b).AREA_cells a ≤ s.AREA_cells a + (if a = b then 1 else 0) := by
  by_cases hab : a = b
  · subst hab
    rw [if_pos rfl]
    simp only [SBF.SetCell]
    split_ifs <;> (try dsimp only) <;> (try simp only [bump]) <;> (try split_ifs) <;>
      (try subst_vars) <;> omega
  · rw [if_neg hab]
    simp only [SBF.SetCell]
    split_ifs <;> (try dsimp only) <;> (try simp only [bump]) <;> (try split_ifs) <;>
      (try subst_vars) <;> omega

lemma InsertRounds_AREA_cells_le (H : HashOracle) (s : SBF) (string : List Nat) (b : Int)
    (k : Nat) (a : Int) :
    (SBF.InsertRounds H s string b k).AREA_cells a ≤
      s.AREA_cells a + (if a = b then (k : Int) else 0) := by
  induction k with
  | zero => simp [SBF.InsertRounds]
  | succ k ih =>
    simp only [SBF.InsertRounds]
    have h1 := SetCell_AREA_cells_le (SBF.InsertRounds H s string b k)
      ((SBF.InsertRounds H s string b k).deriveIndex H string k) b a
    by_cases hab : a = b
    · rw [if_pos hab] at *
      push_cast
      omega
    · rw [if_neg hab] at *
      omega

/-- One `Insert` call preserves the occupancy bound
`cells_used[a] ≤ members[a] * hash_count`. -/
lemma Insert_occupancy_inv (s : SBF) (H : HashOracle) (string : List Nat) (b : Int)
    (hinv : ∀ a, s.AREA_cells a ≤ s.AREA_members a * (s.HASH_number : Int)) :
    ∀ a, (s.Insert H string b).AREA_cells a ≤
      (s.Insert H string b).AREA_members a * ((s.Insert H string b).HASH_number : Int) := by
  intro a
  have h0 : (s.Insert H string b).AREA_cells a =
      (SBF.InsertRounds H s string b s.HASH_number).AREA_cells a := rfl
  have h2 := InsertRounds_AREA_cells_le H s string b s.HASH_number a
  have h3 := hinv a
  rw [h0]
  simp only [Insert_AREA_members, Insert_HASH_number]
  by_cases hab : a = b
  · subst hab
    rw [bump_same]
    rw [if_pos rfl] at h2
    have hexp : (s.AREA_members a + 1) * (s.HASH_number : Int) =
        s.AREA_members a * (s.HASH_number : Int) + (s.HASH_number : Int) := by ring
    rw [hexp]
    linarith
  · rw [bump_other _ _ _ _ hab]
    rw [if_neg hab] at h2
    linarith

lemma InsertList_occupancy (H : HashOracle) :
    ∀ (L : List (List Nat × Int)) (s : SBF),
      (∀ a, s.AREA_cells a ≤ s.AREA_members a * (s.HASH_number : Int)) →
      ∀ a, (s.InsertList H L).AREA_cells a ≤
        (s.InsertList H L).AREA_members a * ((s.InsertList H L).HASH_number : Int) := by
  intro L
  induction L with
  | nil =>
    intro s hinv a
    exact hinv a
  | cons e rest ih =>
    intro s hinv a
    exact ih (s.Insert H e.1 e.2) (Insert_occupancy_inv s H e.1 e.2 hinv) a

/-- Claim C8: starting from a freshly constructed filter (all per-area
counters zero), after any sequence of `Insert` calls every area satisfies
`cells_used[a] ≤ members[a] * hash_count`. -/
theorem occupancy_bound (H : HashOracle) (s : SBF) (L : List (List Nat × Int))
    (hc : ∀ a, s.AREA_cells a = 0) (hm : ∀ a, s.AREA_members a = 0) :
    ∀ a, (s.InsertList H L).AREA_cells a ≤
      (s.InsertList H L).AREA_members a * ((s.InsertList H L).HASH_number : Int) := by
  apply InsertList_occupancy
  intro a
  rw [hc a, hm a]
  simp

/-- Witness for C8 after inserting one element with area 1 into a fresh
filter. -/
theorem occupancy_bound_witness :
    (tFresh.InsertList tHash [([6], 1)]).AREA_cells 1 ≤
      (tFresh.InsertList tHash [([6], 1)]).AREA_members 1 *
        ((tFresh.InsertList tHash [([6], 1)]).HASH_number : Int) :=
  occupancy_bound tHash tFresh [([6], 1)] (fun _ => rfl) (fun _ => rfl) 1

/-! ## Inserting the reserved label 0 -/

/-- The derived index only depends on the salts, the endianness flag and
the bit mapping. -/
lemma deriveIndex_congr (s t : SBF) (H : HashOracle) (string : List Nat) (k : Nat)
    (h1 : t.HASH_salt = s.HASH_salt) (h2 : t.BIG_end = s.BIG_end)
    (h3 : t.bit_mapping = s.bit_mapping) :
    t.deriveIndex H string k = s.deriveIndex H string k := by
  simp [SBF.deriveIndex, h1, h2, h3]

/-- `SetCell` with label 0 never changes any decoded cell value: it
rewrites 0 over an empty cell (incrementing `cells_used[0]`) and counts a
plain collision on a nonzero cell. -/
lemma SetCell_zero (s : SBF) (i : Nat) (hcs : s.cell_size = 1 ∨ s.cell_size = 2) :
    (∀ j, (s.SetCell i 0).GetCell j = s.GetCell j) ∧
    (s.SetCell i 0).AREA_cells =
      (if s.GetCell i = 0 then bump s.AREA_cells 0 1 else s.AREA_cells) ∧
    (s.SetCell i 0).collisions =
      (if s.GetCell i = 0 then s.collisions else s.collisions + 1) ∧
    (s.SetCell i 0).AREA_self_collisions = s.AREA_self_collisions := by
  have hw : (s.cell_size = 1 ∧ (0 : Int) ≤ 0 ∧ (0 : Int) ≤ 255) ∨
      (s.cell_size = 2 ∧ (0 : Int) ≤ 0 ∧ (0 : Int) ≤ 65535) := by
    rcases hcs with h | h
    · exact Or.inl ⟨h, by norm_num⟩
    · exact Or.inr ⟨h, by norm_num⟩
  have hp := SetCell_policy s i 0 hw
  have hnn := GetCell_nonneg s hcs
  by_cases hz : s.GetCell i = 0
  · obtain ⟨hGi, hac, hcol, hsc⟩ := hp.2.2.1 hz
    refine ⟨?_, ?_, ?_, ?_⟩
    · intro j
      by_cases hj : j = i
      · rw [hj, hGi, hz]
      · exact hp.2.1 j hj
    · rw [if_pos hz]
      exact hac
    · rw [if_pos hz]
      exact hcol
    · exact hsc
  · have hgt : (0 : Int) < s.GetCell i := lt_of_le_of_ne (hnn i) (fun he => hz he.symm)
    obtain ⟨hf, hac, hcol, hsc⟩ := hp.2.2.2.2.2 hgt
    refine ⟨?_, ?_, ?_, ?_⟩
    · exact GetCell_congr s _ hp.1.2.2.1 (fun j => by rw [hf])
    · rw [if_neg hz]
      exact hac
    · rw [if_neg hz]
      exact hcol
    · exact hsc

/-- The result of the `Check` loop only depends on the decoded cells, the
salts, the endianness flag and the bit mapping. -/
lemma CheckAux_congr (s t : SBF) (H : HashOracle) (string : List Nat)
    (hG : ∀ j, t.GetCell j = s.GetCell j) (hsalt : t.HASH_salt = s.HASH_salt)
    (hbig : t.BIG_end = s.BIG_end) (hbm : t.bit_mapping = s.bit_mapping) :
    ∀ (r k : Nat) (acc : Int), t.CheckAux H string k acc r = s.CheckAux H string k acc r := by
  intro r
  induction r with
  | zero =>
    intro k acc
    rfl
  | succ r ih =>
    intro k acc
    simp only [SBF.CheckAux]
    rw [deriveIndex_congr s t H string k hsalt hbig hbm, hG]
    split_ifs <;> first | rfl | apply ih

/-- The hash-round loop of an `Insert` with label 0: cells are unchanged,
`cells_used[0]` grows by the number of rounds that read an empty cell,
`total_collisions` by the number of rounds that read a nonzero cell. -/
lemma InsertRounds_zero (H : HashOracle) (s : SBF) (string : List Nat)
    (hcs : s.cell_size = 1 ∨ s.cell_size = 2) (k : Nat) :
    (∀ j, (SBF.InsertRounds H s string 0 k).GetCell j = s.GetCell j) ∧
    (SBF.InsertRounds H s string 0 k).AREA_cells 0 = s.AREA_cells 0 +
      (((List.range k).countP
        (fun m => decide (s.GetCell (s.deriveIndex H string m) = 0)) : Nat) : Int) ∧
    (∀ b, b ≠ 0 → (SBF.InsertRounds H s string 0 k).AREA_cells b = s.AREA_cells b) ∧
    (SBF.InsertRounds H s string 0 k).collisions = s.collisions +
      (((List.range k).countP
        (fun m => !(decide (s.GetCell (s.deriveIndex H string m) = 0))) : Nat) : Int) ∧
    (SBF.InsertRounds H s string 0 k).AREA_self_collisions = s.AREA_self_collisions := by
  induction k with
  | zero =>
    refine ⟨fun j => rfl, by simp [SBF.InsertRounds], fun b _ => rfl,
      by simp [SBF.InsertRounds], rfl⟩
  | succ k ih =>
    obtain ⟨ihG, ihc0, ihcb, ihcol, ihself⟩ := ih
    have hcst : (SBF.InsertRounds H s string 0 k).cell_size = 1 ∨
        (SBF.InsertRounds H s string 0 k).cell_size = 2 := by
      rw [InsertRounds_cell_size]
      exact hcs
    have hidx : (SBF.InsertRounds H s string 0 k).deriveIndex H string k =
        s.deriveIndex H string k :=
      deriveIndex_congr s _ H string k (InsertRounds_HASH_salt H s string 0 k)
        (InsertRounds_BIG_end H s string 0 k) (InsertRounds_bit_mapping H s string 0 k)
    have hsz := SetCell_zero (SBF.InsertRounds H s string 0 k)
      ((SBF.InsertRounds H s string 0 k).deriveIndex H string k) hcst
    have hread : (SBF.InsertRounds H s string 0 k).GetCell
        ((SBF.InsertRounds H s string 0 k).deriveIndex H string k) =
        s.GetCell (s.deriveIndex H string k) := by
      rw [hidx]
      exact ihG _
    have hunfold : SBF.InsertRounds H s string 0 (k + 1) =
        (SBF.InsertRounds H s string 0 k).SetCell
          ((SBF.InsertRounds H s string 0 k).deriveIndex H string k) 0 := rfl
    refine ⟨?_, ?_, ?_, ?_, ?_⟩
    · intro j
      rw [hunfold, hsz.1 j, ihG j]
    · rw [hunfold, hsz.2.1, List.range_succ, List.countP_append]
      by_cases hz : s.GetCell (s.deriveIndex H string k) = 0
      · rw [if_pos (hread.trans hz), bump_same, ihc0]
        simp [hz]
        ring
      · rw [if_neg (fun he => hz (hread.symm.trans he)), ihc0]
        simp [hz]
    · intro b hb
      rw [hunfold, hsz.2.1]
      by_cases hz : s.GetCell (s.deriveIndex H string k) = 0
      · rw [if_pos (hread.trans hz), bump_other _ _ _ _ hb, ihcb b hb]
      · rw [if_neg (fun he => hz (hread.symm.trans he)), ihcb b hb]
    · rw [hunfold, hsz.2.2.1, List.range_succ, List.countP_append]
      by_cases hz : s.GetCell (s.deriveIndex H string k) = 0
      · rw [if_pos (hread.trans hz), ihcol]
        simp [hz]
      · rw [if_neg (fun he => hz (hread.symm.trans he)), ihcol]
        simp [hz]
        ring
    · rw [hunfold, hsz.2.2.2, ihself]

/-- Claim C10: `Insert` with area label 0 is not rejected by the range
check, never changes any decoded cell value — so every later `Check`
returns exactly what it returned before — yet still increments
`total_members` and `members[0]` once, increments `cells_used[0]` once per
round that read an empty cell, and `total_collisions` once per round that
read a nonzero cell; `self_collisions` is untouched. -/
theorem insert_area_zero (s : SBF) (H : HashOracle) (string : List Nat)
    (hcs : s.cell_size = 1 ∨ s.cell_size = 2) :
    (∀ j, (s.Insert H string 0).GetCell j = s.GetCell j) ∧
    (∀ other, (s.Insert H string 0).Check H other = s.Check H other) ∧
    (s.Insert H string 0).members = s.members + 1 ∧
    (s.Insert H string 0).AREA_members 0 = s.AREA_members 0 + 1 ∧
    (s.Insert H string 0).AREA_cells 0 = s.AREA_cells 0 +
      (((List.range s.HASH_number).countP
        (fun m => decide (s.GetCell (s.deriveIndex H string m) = 0)) : Nat) : Int) ∧
    (∀ b, b ≠ 0 → (s.Insert H string 0).AREA_cells b = s.AREA_cells b) ∧
    (s.Insert H string 0).collisions = s.collisions +
      (((List.range s.HASH_number).countP
        (fun m => !(decide (s.GetCell (s.deriveIndex H string m) = 0))) : Nat) : Int) ∧
    (s.Insert H string 0).AREA_self_collisions = s.AREA_self_collisions := by
  obtain ⟨hG, hc0, hcb, hcol, hself⟩ := InsertRounds_zero H s string hcs s.HASH_number
  have hGI : ∀ j, (s.Insert H string 0).GetCell j = s.GetCell j := by
    intro j
    rw [Insert_GetCell]
    exact hG j
  refine ⟨hGI, ?_, by simp, by simp, hc0, hcb, hcol, hself⟩
  intro other
  rw [SBF.Check, SBF.Check, Insert_HASH_number]
  exact CheckAux_congr s _ H other hGI (Insert_HASH_salt s H string 0)
    (Insert_BIG_end s H string 0) (Insert_bit_mapping s H string 0) s.HASH_number 0 0

/-- Witness for C10 on a fresh 1-byte filter: inserting area 0 leaves all
cells decoding to 0 and a later `Check` unchanged, bumps the two member
counters, counts both (empty-cell) rounds in `cells_used[0]` and adds no
collision. -/
theorem insert_area_zero_witness :
    (tFresh.Insert tHash [8] 0).GetCell 0 = tFresh.GetCell 0 ∧
    (tFresh.Insert tHash [8] 0).Check tHash [9] = tFresh.Check tHash [9] ∧
    (tFresh.Insert tHash [8] 0).members = tFresh.members + 1 ∧
    (tFresh.Insert tHash [8] 0).AREA_members 0 = tFresh.AREA_members 0 + 1 := by
  have h := insert_area_zero tFresh tHash [8] (Or.inl rfl)
  exact ⟨h.1 0, h.2.1 [9], h.2.2.1, h.2.2.2.1⟩
